import Mathlib

/-!
Verification of the WaveRNN dataset pipeline (utils/dataset.py).

This file gives a shallow embedding of the batch-construction code:

* `get_vocoder_datasets` — the vocoder train/test split (source lines 31-60).
  The call `random.seed(1234); random.shuffle(dataset_ids)` is an external
  Fisher-Yates shuffle from Python's random module; it is modelled by an
  abstract shuffle function, assumed (where needed) to permute its input.
  The negative-index Python slices `ids[-k:]` and `ids[:-k]` are embedded by
  `pyTailSlice` and `pyDropTail`, including Python's `k = 0` behaviour.
* `ttsFilter`, `get_tts_dataset`, `TTSDataset.getitem` — the TTS index
  (source lines 91-137).  Unpickling, `np.load` and `text_to_sequence` are
  external; the dict lookup `self.text_dict[id]` is embedded as an
  association-list lookup whose `none` result stands for the fatal KeyError.
* `pad1d`, `pad2d`, `collate_tts` — the TTS collator (source lines 140-173),
  with mel values embedded as rationals standing for the float32 entries
  (the affine rescale `mel * 8 - 4` is exact on the values considered).
* `mel_win`, `max_offsets`, `collate_vocoder` — the vocoder collator
  (source lines 63-83).  The per-example `np.random.randint(0, offset)`
  draws are passed in as explicit offsets; the embedding returns `none`
  exactly when some `max_offset ≤ 0`, in which case `randint` raises.
  The decompanding `label_2_float` lives in utils/dsp (outside this module)
  and is not needed by the claims: the slices fed to it are exposed as is.
* `sortIdx`, `fullBins`, `IterOutput` — `BinnedLengthSampler`
  (source lines 176-205).  `torch.sort` is embedded as an insertion sort on
  indices keyed by length (the claims do not depend on tie order); the
  in-place `random.shuffle` calls are abstracted by quantifying over all
  permutations of the shuffled data, giving the step relation `IterOutput`
  between the sorted index list and a possible iterator output.  Note the
  source computes `binned_indices = np.concatenate([binned_idx, last_bin])`
  for the leftover indices but then returns `binned_idx`, so the leftover
  never reaches the output; `IterOutput` is faithful to that.
-/

/-- Python slice `s[-k:]` for a natural `k`: the last `k` elements, except
that `k = 0` yields the whole list (since `s[-0:] = s[0:] = s`). -/
def pyTailSlice (s : List α) (k : Nat) : List α :=
  if k = 0 then s else s.drop (s.length - k)

/-- Python slice `s[:-k]` for a natural `k`: all but the last `k` elements,
except that `k = 0` yields the empty list (since `s[:-0] = s[:0] = []`). -/
def pyDropTail (s : List α) (k : Nat) : List α :=
  if k = 0 then [] else s.take (s.length - k)

/-- Embedding of `get_vocoder_datasets` (dataset.py lines 31-45), restricted
to the id split it computes: the seeded shuffle is the abstract `shuffle`
argument, and the result is `(train_ids, test_ids)`. -/
def get_vocoder_datasets (shuffle : List String → List String)
    (dataset_ids : List String) (voc_test_samples : Nat) :
    List String × List String :=
  let ids := shuffle dataset_ids
  (pyDropTail ids voc_test_samples, pyTailSlice ids voc_test_samples)

/-- Embedding of the filtering loop of `get_tts_dataset` (lines 96-102):
keep exactly the records whose length is at most `tts_max_input_len`,
in corpus order. -/
def ttsFilter (dataset : List (String × Nat)) (tts_max_input_len : Nat) :
    List (String × Nat) :=
  dataset.filter (fun p => decide (p.2 ≤ tts_max_input_len))

/-- State of a constructed `TTSDataset` (lines 124-128): the kept ids and
the loaded text dictionary (as an association list). -/
structure TTSDataset where
  metadata : List String
  text_dict : List (String × String)

/-- Embedding of `get_tts_dataset` (lines 91-121) up to the returned
dataset object: filter the records by length, load the text dictionary and
construct the `TTSDataset`.  No lookup into `text_dict` happens here. -/
def get_tts_dataset (dataset : List (String × Nat)) (tts_max_input_len : Nat)
    (text_dict : List (String × String)) : TTSDataset :=
  { metadata := (ttsFilter dataset tts_max_input_len).map Prod.fst
    text_dict := text_dict }

/-- Embedding of `TTSDataset.__getitem__` (lines 130-134) restricted to the
text lookup `self.text_dict[id]`: `none` models the fatal KeyError raised
when the id has no text entry (`text_to_sequence` and the mel `np.load` are
external). -/
def TTSDataset.getitem (d : TTSDataset) (index : Nat) : Option String :=
  (d.metadata[index]?).bind (fun id => d.text_dict.lookup id)

/-- C5: on a corpus with unique ids and at least `voc_test_samples` of them,
`voc_test_samples > 0`, the vocoder split is disjoint, the test set has
exactly `voc_test_samples` elements and equals the last `voc_test_samples`
elements of the shuffled id list, and train followed by test recovers the
whole shuffled order. -/
theorem voc_split_correct (shuffle : List String → List String)
    (ids : List String) (k : Nat)
    (hperm : ∀ l, (shuffle l).Perm l) (hnodup : ids.Nodup)
    (hk : 0 < k) (hkle : k ≤ ids.length) :
    ((get_vocoder_datasets shuffle ids k).1).Disjoint
      ((get_vocoder_datasets shuffle ids k).2) ∧
    ((get_vocoder_datasets shuffle ids k).2).length = k ∧
    (get_vocoder_datasets shuffle ids k).2 =
      (shuffle ids).drop ((shuffle ids).length - k) ∧
    (get_vocoder_datasets shuffle ids k).1 ++
      (get_vocoder_datasets shuffle ids k).2 = shuffle ids := by
  have hs : (shuffle ids).length = ids.length := (hperm ids).length_eq
  have hnd : (shuffle ids).Nodup := ((hperm ids).symm).nodup hnodup
  have hk0 : k ≠ 0 := Nat.pos_iff_ne_zero.mp hk
  refine ⟨?_, ?_, ?_, ?_⟩
  · simp only [get_vocoder_datasets, pyDropTail, pyTailSlice, if_neg hk0]
    exact List.disjoint_take_drop hnd (le_refl _)
  · simp only [get_vocoder_datasets, pyTailSlice, if_neg hk0, List.length_drop]
    omega
  · simp only [get_vocoder_datasets, pyTailSlice, if_neg hk0]
  · simp only [get_vocoder_datasets, pyDropTail, pyTailSlice, if_neg hk0]
    exact List.take_append_drop _ _

/-- Witness for C5 at a concrete corpus, with the identity permutation as
the (abstract) seeded shuffle. -/
theorem voc_split_correct_witness :
    (["a", "b", "c"] : List String).Nodup ∧ 0 < 1 ∧ 1 ≤ 3 ∧
    (((get_vocoder_datasets id ["a", "b", "c"] 1).1).Disjoint
        ((get_vocoder_datasets id ["a", "b", "c"] 1).2) ∧
      ((get_vocoder_datasets id ["a", "b", "c"] 1).2).length = 1 ∧
      (get_vocoder_datasets id ["a", "b", "c"] 1).2 =
        (id ["a", "b", "c"]).drop ((id ["a", "b", "c"] : List String).length - 1) ∧
      (get_vocoder_datasets id ["a", "b", "c"] 1).1 ++
        (get_vocoder_datasets id ["a", "b", "c"] 1).2 = id ["a", "b", "c"]) :=
  ⟨by decide, by decide, by decide,
    voc_split_correct id ["a", "b", "c"] 1 (fun l => List.Perm.refl l)
      (by decide) (by decide) (by decide)⟩

/-- C10: with a held-out count of zero, the Python negative slices make the
test set the whole shuffled id list and the training set empty. -/
theorem voc_split_zero_heldout (shuffle : List String → List String)
    (ids : List String) :
    get_vocoder_datasets shuffle ids 0 = ([], shuffle ids) := by
  simp [get_vocoder_datasets, pyDropTail, pyTailSlice]

/-- C9: the TTS length filter keeps exactly the records of length at most
`tts_max_input_len`, keeps them in corpus order (the kept list is a sublist
of the corpus), and the constructed index is exactly the kept ids. -/
theorem tts_filter_correct (dataset : List (String × Nat)) (m : Nat)
    (text_dict : List (String × String)) :
    (ttsFilter dataset m).Sublist dataset ∧
    (∀ p ∈ dataset, (p ∈ ttsFilter dataset m ↔ p.2 ≤ m)) ∧
    (∀ p ∈ ttsFilter dataset m, p.2 ≤ m) ∧
    (get_tts_dataset dataset m text_dict).metadata =
      (ttsFilter dataset m).map Prod.fst := by
  refine ⟨List.filter_sublist _, ?_, ?_, rfl⟩
  · intro p hp
    simp [ttsFilter, List.mem_filter, hp]
  · intro p hp
    simp only [ttsFilter, List.mem_filter, decide_eq_true_eq] at hp
    exact hp.2

/-- Witness for C9 at a concrete corpus: one record over, one under the
length bound. -/
theorem tts_filter_correct_witness :
    (("a", 2) ∈ ([("a", 2), ("b", 9)] : List (String × Nat))) ∧
    (ttsFilter [("a", 2), ("b", 9)] 5).Sublist [("a", 2), ("b", 9)] ∧
    (("a", 2) ∈ ttsFilter [("a", 2), ("b", 9)] 5 ↔ (2 : Nat) ≤ 5) ∧
    (get_tts_dataset [("a", 2), ("b", 9)] 5 []).metadata =
      (ttsFilter [("a", 2), ("b", 9)] 5).map Prod.fst :=
  ⟨by decide,
    (tts_filter_correct [("a", 2), ("b", 9)] 5 []).1,
    (tts_filter_correct [("a", 2), ("b", 9)] 5 []).2.1 ("a", 2) (by decide),
    (tts_filter_correct [("a", 2), ("b", 9)] 5 []).2.2.2⟩

/-- Counterexample to C2: with corpus `[("a", 1)]`, length bound 5 and an
empty text dictionary, the kept id "a" has no text entry, yet construction
returns a dataset normally (the id is placed in the index); the failure
only appears at per-record access, where the lookup yields `none` (the
KeyError). -/
theorem tts_init_missing_text_counterexample :
    (get_tts_dataset [("a", 1)] 5 []).metadata = ["a"] ∧
    (([] : List (String × String)).lookup "a" = none) ∧
    (get_tts_dataset [("a", 1)] 5 []).getitem 0 = none :=
  ⟨rfl, rfl, rfl⟩

/-- C2 (amended): constructing the TTS dataset performs no text-map
completeness check — the index is built from the length filter alone,
whatever the text dictionary contains — and a kept id with no text entry
is only detected when that record is accessed, where the lookup in
`__getitem__` fails fatally. -/
theorem tts_missing_text_detected_at_getitem
    (dataset : List (String × Nat)) (m : Nat)
    (text_dict : List (String × String)) (i : Nat) (id : String)
    (hid : (get_tts_dataset dataset m text_dict).metadata[i]? = some id)
    (hmiss : text_dict.lookup id = none) :
    (get_tts_dataset dataset m text_dict).metadata =
      (ttsFilter dataset m).map Prod.fst ∧
    (get_tts_dataset dataset m text_dict).getitem i = none := by
  refine ⟨rfl, ?_⟩
  unfold TTSDataset.getitem
  rw [hid]
  exact hmiss

/-- Witness for the amended C2 at the counterexample input. -/
theorem tts_missing_text_detected_at_getitem_witness :
    (get_tts_dataset [("a", 1)] 5 []).metadata[0]? = some "a" ∧
    (([] : List (String × String)).lookup "a" = none) ∧
    ((get_tts_dataset [("a", 1)] 5 []).metadata =
        (ttsFilter [("a", 1)] 5).map Prod.fst ∧
      (get_tts_dataset [("a", 1)] 5 []).getitem 0 = none) :=
  ⟨rfl, rfl,
    tts_missing_text_detected_at_getitem [("a", 1)] 5 [] 0 "a" rfl rfl⟩

/-- Embedding of `pad1d` (line 140-141): right-pad a token sequence with
zeros up to the target width. -/
def pad1d (x : List ℤ) (max_len : Nat) : List ℤ :=
  x ++ List.replicate (max_len - x.length) 0

/-- Embedding of `pad2d` (line 144-145): right-pad every channel row of a
mel array with zeros along the time axis up to the target width. -/
def pad2d (x : List (List ℚ)) (max_len : Nat) : List (List ℚ) :=
  x.map (fun row => row ++ List.replicate (max_len - row.length) 0)

/-- Python `max` over a list of naturals, as used on the nonempty length
lists in `collate_tts` (on the empty list Python raises; the fold value 0
is never exercised by the claims, which assume a nonempty batch). -/
def listMax (l : List Nat) : Nat := l.foldr max 0

/-- Numpy `shape[-1]` of a mel array stored as channel rows: the time-axis
width, read off the first row (rows of a well-formed array all share it). -/
def melShape2 (m : List (List ℚ)) : Nat := (m.headD []).length

/-- Embedding of the padded mel width computed by `collate_tts`
(lines 158-161): one more than the maximum input mel width, rounded up to
the next multiple of the reduction factor `r` when not already a multiple. -/
def max_spec_len (r : Nat) (batch : List (List ℤ × List (List ℚ))) : Nat :=
  let m := listMax (batch.map (fun b => melShape2 b.2)) + 1
  if m % r ≠ 0 then m + (r - m % r) else m

/-- Embedding of `collate_tts` (lines 148-173): pad the token sequences to
the maximum token length, pad the mel arrays to `max_spec_len`, and apply
the affine rescale `v * 8 - 4` to the whole stacked mel array as the last
step. -/
def collate_tts (r : Nat) (batch : List (List ℤ × List (List ℚ))) :
    List (List ℤ) × List (List (List ℚ)) :=
  let max_x_len := listMax (batch.map (fun b => b.1.length))
  let chars := batch.map (fun b => pad1d b.1 max_x_len)
  let mel := batch.map (fun b => pad2d b.2 (max_spec_len r batch))
  (chars, mel.map (fun m0 => m0.map (fun row => row.map (fun v => v * 8 - 4))))

theorem listMax_ge (l : List Nat) : ∀ x ∈ l, x ≤ listMax l := by
  induction l with
  | nil => simp
  | cons a t ih =>
    intro x hx
    rcases List.mem_cons.mp hx with h | h
    · subst h; exact le_max_left _ _
    · exact (ih x h).trans (le_max_right _ _)

theorem listMax_mem (l : List Nat) (h : l ≠ []) : listMax l ∈ l := by
  induction l with
  | nil => exact absurd rfl h
  | cons a t ih =>
    by_cases ht : t = []
    · subst ht
      simp [listMax]
    · have hstep : listMax (a :: t) = max a (listMax t) := rfl
      rcases max_choice a (listMax t) with hc | hc
      · exact List.mem_cons.mpr (Or.inl (by rw [hstep, hc]))
      · rw [hstep, hc]
        exact List.mem_cons.mpr (Or.inr (ih ht))

theorem round_up_spec (n r : Nat) (hr : 0 < r) :
    r ∣ (if n % r ≠ 0 then n + (r - n % r) else n) ∧
    n ≤ (if n % r ≠ 0 then n + (r - n % r) else n) ∧
    ∀ m, r ∣ m → n ≤ m → (if n % r ≠ 0 then n + (r - n % r) else n) ≤ m := by
  by_cases h : n % r = 0
  · simp only [if_neg (show ¬(n % r ≠ 0) from fun hh => hh h)]
    exact ⟨Nat.dvd_of_mod_eq_zero h, le_refl n, fun m _ hm => hm⟩
  · simp only [if_pos h]
    have e := Nat.div_add_mod n r
    have hmlt : n % r < r := Nat.mod_lt _ hr
    generalize hd : n / r = d at e
    generalize ha : n % r = a at e hmlt h
    generalize ht : r * d = t at e
    have key : n + (r - a) = t + r := by omega
    refine ⟨⟨d + 1, by rw [key, ← ht]; ring⟩, Nat.le_add_right _ _, ?_⟩
    intro m hdvd hnm
    obtain ⟨k, rfl⟩ := hdvd
    rw [key]
    have hdk : d < k := by
      by_contra hge
      push_neg at hge
      have hkd : r * k ≤ r * d := Nat.mul_le_mul (le_refl r) hge
      have ha1 : 1 ≤ a := Nat.one_le_iff_ne_zero.mpr h
      linarith
    calc t + r = r * (d + 1) := by rw [← ht]; ring
      _ ≤ r * k := Nat.mul_le_mul (le_refl r) hdk

theorem max_spec_len_spec (r : Nat) (batch : List (List ℤ × List (List ℚ)))
    (hr : 0 < r) :
    r ∣ max_spec_len r batch ∧
    listMax (batch.map (fun b => melShape2 b.2)) + 1 ≤ max_spec_len r batch ∧
    ∀ m, r ∣ m → listMax (batch.map (fun b => melShape2 b.2)) + 1 ≤ m →
      max_spec_len r batch ≤ m := by
  have h := round_up_spec (listMax (batch.map (fun b => melShape2 b.2)) + 1) r hr
  simpa [max_spec_len] using h

/-- Conclusion of claim C6 about `collate_tts` on a batch: stacked token
rows all have the batch's maximum token length (which is attained), each
token row is the original sequence followed by zeros, stacked mel rows all
have width `max_spec_len`, and that width is the least multiple of `r`
that is at least one more than the maximum input mel width. -/
def collateTTSPost (r : Nat) (batch : List (List ℤ × List (List ℚ))) : Prop :=
  (∀ c ∈ (collate_tts r batch).1,
      c.length = listMax (batch.map (fun b => b.1.length))) ∧
  (∃ b ∈ batch, b.1.length = listMax (batch.map (fun b => b.1.length))) ∧
  (∀ (i : Nat) (b : List ℤ × List (List ℚ)), batch[i]? = some b →
      (collate_tts r batch).1[i]? =
        some (b.1 ++
          List.replicate
            (listMax (batch.map (fun b2 => b2.1.length)) - b.1.length) (0 : ℤ))) ∧
  (∀ m0 ∈ (collate_tts r batch).2, ∀ row ∈ m0,
      row.length = max_spec_len r batch) ∧
  r ∣ max_spec_len r batch ∧
  listMax (batch.map (fun b => melShape2 b.2)) + 1 ≤ max_spec_len r batch ∧
  (∀ n, r ∣ n → listMax (batch.map (fun b => melShape2 b.2)) + 1 ≤ n →
      max_spec_len r batch ≤ n)

/-- C6: on a nonempty TTS batch with well-formed (rectangular) mel arrays
and a positive reduction factor, `collate_tts` pads tokens to the batch
maximum token length with zeros, preserving each sequence as a left-aligned
run, and pads mels to the smallest multiple of `r` that is at least the
maximum input mel width plus one. -/
theorem collate_tts_correct (r : Nat) (batch : List (List ℤ × List (List ℚ)))
    (hne : batch ≠ []) (hr : 0 < r)
    (hrect : ∀ b ∈ batch, ∀ row ∈ b.2, row.length = melShape2 b.2) :
    collateTTSPost r batch := by
  obtain ⟨hdvd, hge, hmin⟩ := max_spec_len_spec r batch hr
  refine ⟨?_, ?_, ?_, ?_, hdvd, hge, hmin⟩
  · intro c hc
    simp only [collate_tts, List.mem_map] at hc
    obtain ⟨b, hb, rfl⟩ := hc
    have hle : b.1.length ≤ listMax (batch.map (fun b => b.1.length)) :=
      listMax_ge _ _ (List.mem_map_of_mem _ hb)
    simp only [pad1d, List.length_append, List.length_replicate]
    omega
  · have hmem := listMax_mem (batch.map (fun b => b.1.length))
      (by simpa using hne)
    obtain ⟨b, hb, hbeq⟩ := List.mem_map.mp hmem
    exact ⟨b, hb, hbeq⟩
  · intro i b hb
    simp [collate_tts, List.getElem?_map, hb, pad1d]
  · intro m0 hm0 row hrow
    simp only [collate_tts, List.map_map, List.mem_map] at hm0
    obtain ⟨b, hb, rfl⟩ := hm0
    simp only [Function.comp, pad2d, List.map_map, List.mem_map] at hrow
    obtain ⟨row0, hrow0, rfl⟩ := hrow
    have hsh : row0.length = melShape2 b.2 := hrect b hb row0 hrow0
    have hle : melShape2 b.2 ≤ listMax (batch.map (fun b => melShape2 b.2)) :=
      listMax_ge _ _ (List.mem_map_of_mem _ hb)
    simp only [Function.comp, List.length_map, List.length_append,
      List.length_replicate]
    omega

/-- Witness for C6 on a concrete two-example batch with token lengths 1 and
2 and mel widths 1 and 2 (so the padded mel width is 4 = round up of 3 to a
multiple of 2). -/
theorem collate_tts_correct_witness :
    ([(([1] : List ℤ), [[(0 : ℚ)]]), ([2, 3], [[0, 0]])] ≠
        ([] : List (List ℤ × List (List ℚ)))) ∧
    0 < 2 ∧
    (∀ b ∈ [(([1] : List ℤ), [[(0 : ℚ)]]), ([2, 3], [[0, 0]])],
        ∀ row ∈ b.2, row.length = melShape2 b.2) ∧
    collateTTSPost 2 [(([1] : List ℤ), [[(0 : ℚ)]]), ([2, 3], [[0, 0]])] :=
  ⟨by decide, by decide, by decide,
    collate_tts_correct 2 _ (by decide) (by decide) (by decide)⟩

/-- C7: in `collate_tts` the affine rescale is applied after padding, to the
whole stacked array, so every output mel entry at a time index at or beyond
that example's original mel width is exactly -4 (the rescaled zero pad). -/
theorem collate_tts_rescale_last (r : Nat) (batch : List (List ℤ × List (List ℚ)))
    (i ch t : Nat) (b : List ℤ × List (List ℚ)) (row : List ℚ)
    (hb : batch[i]? = some b) (hrow : b.2[ch]? = some row)
    (hrect : row.length = melShape2 b.2)
    (ht1 : melShape2 b.2 ≤ t) (ht2 : t < max_spec_len r batch) :
    (((collate_tts r batch).2[i]?).bind (fun m0 => m0[ch]?)).bind
      (fun r0 => r0[t]?) = some (-4 : ℚ) := by
  have hchain : (collate_tts r batch).2 =
      batch.map (fun b =>
        (pad2d b.2 (max_spec_len r batch)).map
          (fun row => row.map (fun v => v * 8 - 4))) := by
    simp [collate_tts, List.map_map]
  simp only [hchain, List.getElem?_map, hb, Option.map_some', Option.some_bind]
  simp only [pad2d, List.map_map, List.getElem?_map, hrow, Option.map_some',
    Option.some_bind, Function.comp]
  rw [List.getElem?_append_right (by omega : row.length ≤ t)]
  rw [List.getElem?_replicate]
  rw [if_pos (by omega : t - row.length < max_spec_len r batch - row.length)]
  norm_num

/-- Witness for C7: a one-example batch whose mel has width 1; the padded
width is 2, and the padded entry at time index 1 comes out as exactly -4. -/
theorem collate_tts_rescale_last_witness :
    (([(([] : List ℤ), [[(0 : ℚ)]])] : List (List ℤ × List (List ℚ)))[0]? =
        some (([] : List ℤ), [[(0 : ℚ)]])) ∧
    ([[(0 : ℚ)]][0]? = some [(0 : ℚ)]) ∧
    ([(0 : ℚ)].length = melShape2 [[(0 : ℚ)]]) ∧
    (melShape2 [[(0 : ℚ)]] ≤ 1) ∧
    (1 < max_spec_len 1 [(([] : List ℤ), [[(0 : ℚ)]])]) ∧
    (((collate_tts 1 [(([] : List ℤ), [[(0 : ℚ)]])]).2[0]?).bind
        (fun m0 => m0[0]?)).bind (fun r0 => r0[1]?) = some (-4 : ℚ) :=
  ⟨by decide, by decide, by decide, by decide, by decide,
    collate_tts_rescale_last 1 [(([] : List ℤ), [[(0 : ℚ)]])] 0 0 1
      (([] : List ℤ), [[(0 : ℚ)]]) [(0 : ℚ)] (by decide) (by decide)
      (by decide) (by decide) (by decide)⟩

/-- Embedding of the mel window width of `collate_vocoder` (line 64):
`voc_seq_len // hop_length + 2 * voc_pad` with integer division. -/
def mel_win (voc_seq_len hop_length voc_pad : Nat) : Nat :=
  voc_seq_len / hop_length + 2 * voc_pad

/-- Embedding of the per-example maximum valid mel offsets of
`collate_vocoder` (line 65); the subtraction is over the integers since the
Python value can be negative or zero for short examples.  Each example is a
pair of a mel array, seen as its list of time frames, and a quantized
waveform. -/
def max_offsets (voc_seq_len hop_length voc_pad : Nat)
    (batch : List (List α × List ℤ)) : List ℤ :=
  batch.map (fun x =>
    (x.1.length : ℤ) -
      ((mel_win voc_seq_len hop_length voc_pad : ℤ) + 2 * (voc_pad : ℤ)))

/-- Embedding of `collate_vocoder` (lines 63-77) up to the mel and label
stacks: the random draws of line 66 are passed in as `mel_offsets`, and the
result is `none` exactly when some maximum offset is not positive, in which
case `np.random.randint(0, offset)` raises and the batch aborts.  In the
successful case the mel crops and the `voc_seq_len + 1`-sample waveform
crops are returned; line 67's `sig_offsets` are inlined into the waveform
slicing. -/
def collate_vocoder (voc_seq_len hop_length voc_pad : Nat)
    (mel_offsets : List Nat) (batch : List (List α × List ℤ)) :
    Option (List (List α) × List (List ℤ)) :=
  if ∀ o ∈ max_offsets voc_seq_len hop_length voc_pad batch, 0 < o then
    some
      (List.zipWith
        (fun x o => (x.1.drop o).take (mel_win voc_seq_len hop_length voc_pad))
        batch mel_offsets,
      List.zipWith
        (fun x o => (x.2.drop ((o + voc_pad) * hop_length)).take (voc_seq_len + 1))
        batch mel_offsets)
  else none

/-- Embedding of line 79's slice `labels[:, :voc_seq_len]`: the integer
samples handed to the external decompanding `label_2_float` (utils/dsp) to
form the model input `x`. -/
def voc_x_raw (voc_seq_len : Nat) (labels : List (List ℤ)) : List (List ℤ) :=
  labels.map (fun l => l.take voc_seq_len)

/-- Embedding of line 81's shifted target `y = labels[:, 1:]`. -/
def voc_y (labels : List (List ℤ)) : List (List ℤ) :=
  labels.map (fun l => l.drop 1)

theorem voc_crop_bound (s h p o M : Nat) (hh : 0 < h)
    (hbound : o + (s / h + 2 * p) + 2 * p < M) :
    (o + p) * h + (s + 1) ≤ M * h := by
  have e := Nat.div_add_mod s h
  have hmlt : s % h < h := Nat.mod_lt _ hh
  generalize hq : s / h = q at e hbound
  generalize hA : s % h = a at e hmlt
  have key : o + p + (q + 1) ≤ M := by omega
  have h1 : s + 1 ≤ (q + 1) * h := by nlinarith
  calc (o + p) * h + (s + 1) ≤ (o + p) * h + (q + 1) * h :=
        Nat.add_le_add_left h1 _
    _ = (o + p + (q + 1)) * h := by ring
    _ ≤ M * h := Nat.mul_le_mul key le_rfl

/-- Conclusion of claim C4 about `collate_vocoder` on a batch of aligned
examples: the call succeeds, the output stacks have one row per example,
every mel crop has width exactly `mel_win`, every waveform crop has length
exactly `voc_seq_len + 1` and starts at `(mel_offset + voc_pad) *
hop_length`, and the model input and the shifted integer target are the
first and last `voc_seq_len` samples of the crop. -/
def vocCollatePost {α : Type} (voc_seq_len hop_length voc_pad : Nat)
    (mel_offsets : List Nat) (batch : List (List α × List ℤ)) : Prop :=
  ∃ mels labels,
    collate_vocoder voc_seq_len hop_length voc_pad mel_offsets batch =
      some (mels, labels) ∧
    mels.length = batch.length ∧ labels.length = batch.length ∧
    (∀ m0 ∈ mels, m0.length = mel_win voc_seq_len hop_length voc_pad) ∧
    (∀ l ∈ labels, l.length = voc_seq_len + 1) ∧
    (∀ (i : Nat) (b : List α × List ℤ) (o : Nat),
        batch[i]? = some b → mel_offsets[i]? = some o →
        mels[i]? =
            some ((b.1.drop o).take (mel_win voc_seq_len hop_length voc_pad)) ∧
          labels[i]? =
            some ((b.2.drop ((o + voc_pad) * hop_length)).take
              (voc_seq_len + 1))) ∧
    voc_x_raw voc_seq_len labels = labels.map (fun l => l.take voc_seq_len) ∧
    voc_y labels = labels.map (fun l => l.drop 1) ∧
    (∀ l ∈ labels,
        (l.take voc_seq_len).length = voc_seq_len ∧
        (l.drop 1).length = voc_seq_len)

/-- C4: on a vocoder batch in which every mel strictly exceeds
`mel_win + 2 * voc_pad` frames, every waveform has the aligned length
`mel_length * hop_length`, there is one drawn offset per example and every
drawn offset is below that example's `max_offset`, the collator succeeds
and produces exactly the crops of the claim. -/
theorem collate_vocoder_correct {α : Type} (voc_seq_len hop_length voc_pad : Nat)
    (mel_offsets : List Nat) (batch : List (List α × List ℤ))
    (hh : 0 < hop_length)
    (hlen : mel_offsets.length = batch.length)
    (hshort : ∀ b ∈ batch,
        mel_win voc_seq_len hop_length voc_pad + 2 * voc_pad < b.1.length)
    (halign : ∀ b ∈ batch, b.2.length = b.1.length * hop_length)
    (hdraw : ∀ (i : Nat) (b : List α × List ℤ) (o : Nat),
        batch[i]? = some b → mel_offsets[i]? = some o →
        o + (mel_win voc_seq_len hop_length voc_pad + 2 * voc_pad) <
          b.1.length) :
    vocCollatePost voc_seq_len hop_length voc_pad mel_offsets batch := by
  have hguard : ∀ o ∈ max_offsets voc_seq_len hop_length voc_pad batch,
      0 < o := by
    intro o ho
    simp only [max_offsets, List.mem_map] at ho
    obtain ⟨b, hb, rfl⟩ := ho
    have := hshort b hb
    omega
  refine ⟨List.zipWith
      (fun x o => (x.1.drop o).take (mel_win voc_seq_len hop_length voc_pad))
      batch mel_offsets,
    List.zipWith
      (fun x o =>
        (x.2.drop ((o + voc_pad) * hop_length)).take (voc_seq_len + 1))
      batch mel_offsets,
    ?_, ?_, ?_, ?_, ?_, ?_, rfl, rfl, ?_⟩
  · unfold collate_vocoder
    rw [if_pos hguard]
  · simp [List.length_zipWith, hlen]
  · simp [List.length_zipWith, hlen]
  · intro m0 hm
    obtain ⟨i, hi⟩ := List.mem_iff_getElem?.mp hm
    rw [List.getElem?_zipWith] at hi
    rcases hbo : batch[i]? with _ | b
    · rw [hbo] at hi; cases hi
    rcases hoo : mel_offsets[i]? with _ | o
    · rw [hbo, hoo] at hi; cases hi
    rw [hbo, hoo] at hi
    cases hi
    have hd := hdraw i b o hbo hoo
    simp only [List.length_take, List.length_drop]
    omega
  · intro l hl
    obtain ⟨i, hi⟩ := List.mem_iff_getElem?.mp hl
    rw [List.getElem?_zipWith] at hi
    rcases hbo : batch[i]? with _ | b
    · rw [hbo] at hi; cases hi
    rcases hoo : mel_offsets[i]? with _ | o
    · rw [hbo, hoo] at hi; cases hi
    rw [hbo, hoo] at hi
    cases hi
    have hd := hdraw i b o hbo hoo
    have hbm : b ∈ batch := List.getElem?_mem hbo
    have hwav := halign b hbm
    have hbound : (o + voc_pad) * hop_length + (voc_seq_len + 1) ≤
        b.1.length * hop_length := by
      refine voc_crop_bound voc_seq_len hop_length voc_pad o b.1.length hh ?_
      simp only [mel_win] at hd
      omega
    simp only [List.length_take, List.length_drop, hwav]
    omega
  · intro i b o hbo hoo
    constructor <;> rw [List.getElem?_zipWith, hbo, hoo]
  · intro l hl
    obtain ⟨i, hi⟩ := List.mem_iff_getElem?.mp hl
    rw [List.getElem?_zipWith] at hi
    rcases hbo : batch[i]? with _ | b
    · rw [hbo] at hi; cases hi
    rcases hoo : mel_offsets[i]? with _ | o
    · rw [hbo, hoo] at hi; cases hi
    rw [hbo, hoo] at hi
    cases hi
    have hd := hdraw i b o hbo hoo
    have hbm : b ∈ batch := List.getElem?_mem hbo
    have hwav := halign b hbm
    have hbound : (o + voc_pad) * hop_length + (voc_seq_len + 1) ≤
        b.1.length * hop_length := by
      refine voc_crop_bound voc_seq_len hop_length voc_pad o b.1.length hh ?_
      simp only [mel_win] at hd
      omega
    constructor <;>
      · simp only [List.length_take, List.length_drop, hwav]
        omega

/-- Witness for C4: one example with a 2-frame mel, waveform of 2 aligned
samples, crop length 1, hop 1, no context pad, and drawn offset 0. -/
theorem collate_vocoder_correct_witness :
    0 < 1 ∧
    ([(0 : Nat)].length = ([(([(), ()] : List Unit), [5, 6])] :
        List (List Unit × List ℤ)).length) ∧
    (∀ b ∈ ([(([(), ()] : List Unit), [5, 6])] : List (List Unit × List ℤ)),
        mel_win 1 1 0 + 2 * 0 < b.1.length) ∧
    (∀ b ∈ ([(([(), ()] : List Unit), [5, 6])] : List (List Unit × List ℤ)),
        b.2.length = b.1.length * 1) ∧
    vocCollatePost 1 1 0 [0] [(([(), ()] : List Unit), [5, 6])] :=
  ⟨by decide, by decide, by decide, by decide,
    collate_vocoder_correct 1 1 0 [0] [(([(), ()] : List Unit), [5, 6])]
      (by decide) (by decide) (by decide) (by decide)
      (by
        intro i b o hb ho
        cases i with
        | zero =>
            rw [List.getElem?_cons_zero] at hb ho
            cases hb
            cases ho
            decide
        | succ n =>
            rw [List.getElem?_cons_succ, List.getElem?_nil] at hb
            cases hb)⟩

/-- C8: if some example in the batch has a mel of at most
`mel_win + 2 * voc_pad` frames, its maximum offset is not positive, the
random draw of `np.random.randint(0, offset)` raises, and `collate_vocoder`
aborts without producing a batch. -/
theorem collate_vocoder_short_fatal {α : Type} (voc_seq_len hop_length voc_pad : Nat)
    (mel_offsets : List Nat) (batch : List (List α × List ℤ))
    (b : List α × List ℤ) (hb : b ∈ batch)
    (hshort : b.1.length ≤ mel_win voc_seq_len hop_length voc_pad + 2 * voc_pad) :
    collate_vocoder voc_seq_len hop_length voc_pad mel_offsets batch = none := by
  unfold collate_vocoder
  rw [if_neg]
  intro hall
  have hmem : ((b.1.length : ℤ) -
        ((mel_win voc_seq_len hop_length voc_pad : ℤ) + 2 * (voc_pad : ℤ))) ∈
      max_offsets voc_seq_len hop_length voc_pad batch :=
    List.mem_map_of_mem _ hb
  have := hall _ hmem
  omega

/-- Witness for C8: a batch whose single example has a 1-frame mel while
the required window is 2 frames; the collator returns no batch. -/
theorem collate_vocoder_short_fatal_witness :
    ((([()] : List Unit), [(0 : ℤ)]) ∈
        ([(([()] : List Unit), [0])] : List (List Unit × List ℤ))) ∧
    (([()] : List Unit).length ≤ mel_win 2 1 0 + 2 * 0) ∧
    collate_vocoder 2 1 0 [] [(([()] : List Unit), [0])] = none :=
  ⟨by decide, by decide,
    collate_vocoder_short_fatal 2 1 0 [] [(([()] : List Unit), [0])]
      (([()] : List Unit), [0]) (by decide) (by decide)⟩

/-- Insertion step of the index sort used to embed `torch.sort(lengths)`
in `BinnedLengthSampler.__init__` (line 178): indices are ordered by their
length entry. -/
def insertByLen (lengths : List Nat) (i : Nat) : List Nat → List Nat
  | [] => [i]
  | j :: rest =>
    if lengths.getD i 0 ≤ lengths.getD j 0 then i :: j :: rest
    else j :: insertByLen lengths i rest

/-- Embedding of `self.idx` from `BinnedLengthSampler.__init__` (line 178):
the indices `0, ..., N-1` sorted by ascending length (an insertion sort;
the claims under verification do not depend on how ties are ordered). -/
def sortIdx (lengths : List Nat) : List Nat :=
  (List.range lengths.length).foldr (fun i acc => insertByLen lengths i acc) []

/-- The full bins formed by `BinnedLengthSampler.__iter__` (lines 189-192):
the first `len(idx) // bin_size` consecutive `bin_size`-wide slices of the
sorted index list, in order. -/
def fullBins (idx : List Nat) (bin_size : Nat) : List (List Nat) :=
  (List.range (idx.length / bin_size)).map
    (fun i => (idx.drop (i * bin_size)).take bin_size)

/-- Step relation of `BinnedLengthSampler.__iter__` (lines 183-202) between
the sorted index list and a possible iterator output, with the two
`random.shuffle` uses abstracted over all permutations: each full bin is
shuffled in place, the list of bins is shuffled, and the result is the
flattening of the shuffled bins.  `np.stack` requires at least one full
bin (it raises on an empty list), whence the first conjunct.  The leftover
`idx[len(binned_idx):]` is shuffled into the local `binned_indices`, but
the function returns `binned_idx`, so the leftover is absent from the
output. -/
def IterOutput (idx : List Nat) (bin_size : Nat) (out : List Nat) : Prop :=
  0 < idx.length / bin_size ∧
  ∃ shuffled permuted : List (List Nat),
    List.Forall₂ List.Perm (fullBins idx bin_size) shuffled ∧
    permuted.Perm shuffled ∧
    out = permuted.flatten

theorem fullBins_length (idx : List Nat) (bs : Nat) :
    (fullBins idx bs).length = idx.length / bs := by
  simp [fullBins]

theorem fullBins_getElem_some (idx : List Nat) (bs i : Nat)
    (hi : i < idx.length / bs) :
    (fullBins idx bs)[i]? = some ((idx.drop (i * bs)).take bs) := by
  simp [fullBins, List.getElem?_map, List.getElem?_range, hi]

theorem fullBins_mem_length (idx : List Nat) (bs : Nat) (l : List Nat)
    (hl : l ∈ fullBins idx bs) : l.length = bs := by
  simp only [fullBins, List.mem_map, List.mem_range] at hl
  obtain ⟨i, hi, rfl⟩ := hl
  have h2 : (i + 1) * bs ≤ (idx.length / bs) * bs := Nat.mul_le_mul hi le_rfl
  have h3 : (idx.length / bs) * bs ≤ idx.length := Nat.div_mul_le_self _ _
  have h5 : (i + 1) * bs = i * bs + bs := by ring
  have h4 : i * bs + bs ≤ idx.length := by linarith
  simp only [List.length_take, List.length_drop]
  omega

theorem iterOutput_block_lengths (idx : List Nat) (bs : Nat)
    (shuffled permuted : List (List Nat))
    (hf2 : List.Forall₂ List.Perm (fullBins idx bs) shuffled)
    (hp : permuted.Perm shuffled) :
    ∀ l ∈ permuted, l.length = bs := by
  intro l hl
  have hlsh : l ∈ shuffled := hp.mem_iff.mp hl
  obtain ⟨⟨i, hi⟩, rfl⟩ := List.mem_iff_get.mp hlsh
  obtain ⟨hleq, hrel⟩ := List.forall₂_iff_get.mp hf2
  have hrel_i := hrel i (by omega) hi
  rw [← hrel_i.length_eq]
  exact fullBins_mem_length idx bs _ (List.get_mem _ _ _)

theorem iterOutput_length (idx : List Nat) (bs : Nat) (out : List Nat)
    (h : IterOutput idx bs out) :
    out.length = bs * (idx.length / bs) := by
  obtain ⟨-, shuffled, permuted, hf2, hp, rfl⟩ := h
  have hlen_pm := iterOutput_block_lengths idx bs shuffled permuted hf2 hp
  rw [List.length_flatten]
  have hmap : permuted.map List.length =
      List.replicate (permuted.map List.length).length bs := by
    apply List.eq_replicate_of_mem
    intro x hx
    obtain ⟨l, hl, rfl⟩ := List.mem_map.mp hx
    exact hlen_pm l hl
  rw [hmap, List.sum_replicate, smul_eq_mul]
  have hplen : permuted.length = idx.length / bs := by
    rw [hp.length_eq, ← hf2.length_eq, fullBins_length]
  simp [hplen, Nat.mul_comm]

theorem flatten_block {α : Type} (bs : Nat) (L : List (List α)) :
    ∀ (j : Nat), (∀ l ∈ L, l.length = bs) → j < L.length →
      (L.flatten.drop (j * bs)).take bs = L.getD j [] := by
  induction L with
  | nil =>
    intro j _ hj
    simp at hj
  | cons l L ih =>
    intro j hlen hj
    cases j with
    | zero =>
      have hl : l.length = bs := hlen l (List.mem_cons_self _ _)
      simp only [Nat.zero_mul, List.drop_zero, List.flatten_cons,
        List.getD_cons_zero]
      rw [← hl, List.take_left]
    | succ n =>
      have hl : l.length = bs := hlen l (List.mem_cons_self _ _)
      have hstep : (n + 1) * bs = l.length + n * bs := by rw [hl]; ring
      simp only [List.flatten_cons, List.getD_cons_succ]
      rw [hstep, List.drop_append]
      exact ih n (fun x hx => hlen x (List.mem_cons_of_mem _ hx))
        (by simpa using hj)

/-- Conclusion of claim C3 about an iterator output: every full
`bin_size`-wide slice of the sorted index order appears, internally
permuted, as some contiguous `bin_size`-wide block of the output; every
such block of the output is a permutation of some full sorted slice; and
the output consists exactly of those blocks. -/
def binnedBlocksPost (idx : List Nat) (bs : Nat) (out : List Nat) : Prop :=
  (∀ i, i < idx.length / bs → ∃ j, j < idx.length / bs ∧
      ((out.drop (j * bs)).take bs).Perm ((idx.drop (i * bs)).take bs)) ∧
  (∀ j, j < idx.length / bs → ∃ i, i < idx.length / bs ∧
      ((out.drop (j * bs)).take bs).Perm ((idx.drop (i * bs)).take bs)) ∧
  out.length = bs * (idx.length / bs)

/-- C3: for any accepted configuration (`bin_size` a multiple of
`batch_size`) and any output of the sampler's iterator, each contiguous
`bin_size`-wide slice of the length-sorted index order occupies exactly one
contiguous block of the output, blocks being internally permuted and
ordered arbitrarily, with no mixing between blocks.  (The final partial
slice produces no block at all: see C1.) -/
theorem binned_sampler_blocks (lengths : List Nat) (batch_size bin_size : Nat)
    (out : List Nat)
    (_hconfig : bin_size % batch_size = 0)
    (h : IterOutput (sortIdx lengths) bin_size out) :
    binnedBlocksPost (sortIdx lengths) bin_size out := by
  have hlen_out := iterOutput_length _ _ _ h
  obtain ⟨hpos, shuffled, permuted, hf2, hp, hout⟩ := h
  set idx := sortIdx lengths with hidx
  have hlen_pm := iterOutput_block_lengths idx bin_size shuffled permuted hf2 hp
  obtain ⟨hleq, hrel⟩ := List.forall₂_iff_get.mp hf2
  have hfbl : (fullBins idx bin_size).length = idx.length / bin_size :=
    fullBins_length idx bin_size
  have hplen : permuted.length = idx.length / bin_size := by
    rw [hp.length_eq, ← hf2.length_eq, fullBins_length]
  refine ⟨?_, ?_, hlen_out⟩
  · intro i hi
    have hi1 : i < (fullBins idx bin_size).length := by omega
    have hi2 : i < shuffled.length := by omega
    have hrel_i := hrel i hi1 hi2
    have hsm : shuffled.get ⟨i, hi2⟩ ∈ permuted :=
      hp.mem_iff.mpr (List.get_mem _ _ _)
    obtain ⟨⟨j, hj⟩, hsj⟩ := List.mem_iff_get.mp hsm
    refine ⟨j, by omega, ?_⟩
    rw [hout, flatten_block bin_size permuted j hlen_pm hj,
      List.getD_eq_getElem permuted [] hj]
    have hsj' : permuted[j] = shuffled.get ⟨i, hi2⟩ := by
      simpa using hsj
    rw [hsj']
    have hfb : (fullBins idx bin_size).get ⟨i, hi1⟩ =
        (idx.drop (i * bin_size)).take bin_size := by
      have hq := fullBins_getElem_some idx bin_size i hi
      rw [List.getElem?_eq_some_iff] at hq
      obtain ⟨h', e⟩ := hq
      rw [List.get_eq_getElem]
      exact e
    rw [hfb] at hrel_i
    exact hrel_i.symm
  · intro j hj
    have hj1 : j < permuted.length := by omega
    have hsm : permuted.get ⟨j, hj1⟩ ∈ shuffled :=
      hp.mem_iff.mp (List.get_mem _ _ _)
    obtain ⟨⟨i, hi2⟩, hsi⟩ := List.mem_iff_get.mp hsm
    have hi1 : i < (fullBins idx bin_size).length := by omega
    have hi : i < idx.length / bin_size := by omega
    have hrel_i := hrel i hi1 hi2
    refine ⟨i, hi, ?_⟩
    rw [hout, flatten_block bin_size permuted j hlen_pm hj1,
      List.getD_eq_getElem permuted [] hj1]
    have hsi' : permuted[j] = shuffled.get ⟨i, hi2⟩ := by
      simpa using hsi.symm
    rw [hsi']
    have hfb : (fullBins idx bin_size).get ⟨i, hi1⟩ =
        (idx.drop (i * bin_size)).take bin_size := by
      have hq := fullBins_getElem_some idx bin_size i hi
      rw [List.getElem?_eq_some_iff] at hq
      obtain ⟨h', e⟩ := hq
      rw [List.get_eq_getElem]
      exact e
    rw [hfb] at hrel_i
    exact hrel_i.symm

/-- Witness for C3: lengths `[5, 3, 7, 1]` sort to index order
`[3, 1, 0, 2]`; with identity shuffles the iterator emits `[3, 1, 0, 2]`,
whose two blocks are the two sorted slices. -/
theorem binned_sampler_blocks_witness :
    (2 % 2 = 0) ∧ IterOutput (sortIdx [5, 3, 7, 1]) 2 [3, 1, 0, 2] ∧
    binnedBlocksPost (sortIdx [5, 3, 7, 1]) 2 [3, 1, 0, 2] := by
  have hio : IterOutput (sortIdx [5, 3, 7, 1]) 2 [3, 1, 0, 2] := by
    refine ⟨by decide, [[3, 1], [0, 2]], [[3, 1], [0, 2]], ?_,
      List.Perm.refl _, rfl⟩
    rw [show fullBins (sortIdx [5, 3, 7, 1]) 2 = [[3, 1], [0, 2]] from by decide]
    exact List.Forall₂.cons (List.Perm.refl _)
      (List.Forall₂.cons (List.Perm.refl _) List.Forall₂.nil)
  exact ⟨rfl, hio, binned_sampler_blocks [5, 3, 7, 1] 2 2 [3, 1, 0, 2] rfl hio⟩

/-- C1 fails on the code: with lengths `[5, 3, 7]`, batch size 1 and bin
size 2 (an accepted configuration, since 2 % 1 = 0), every possible
iterator output has exactly 2 elements — the N mod bin_size = 1 leftover
sorted index is dropped, because line 200 stores the concatenation in the
unused local `binned_indices` while line 202 returns `binned_idx` — so no
output is a permutation of `{0, 1, 2}`, contradicting the claim. -/
theorem binned_sampler_drops_remainder (out : List Nat)
    (h : IterOutput (sortIdx [5, 3, 7]) 2 out) :
    out.length = 2 ∧ ¬ out.Perm (List.range 3) := by
  have hlen := iterOutput_length _ _ _ h
  rw [show (sortIdx [5, 3, 7]).length = 3 from by decide] at hlen
  norm_num at hlen
  refine ⟨hlen, ?_⟩
  intro hperm
  have hl := hperm.length_eq
  rw [hlen, List.length_range] at hl
  exact absurd hl (by decide)

/-- Witness for C1's refutation: the reachable output `[1, 0]` (identity
shuffles) misses index 2 — the longest utterance never appears. -/
theorem binned_sampler_drops_remainder_witness :
    IterOutput (sortIdx [5, 3, 7]) 2 [1, 0] ∧
    (([1, 0] : List Nat).length = 2 ∧
      ¬ ([1, 0] : List Nat).Perm (List.range 3)) := by
  have hio : IterOutput (sortIdx [5, 3, 7]) 2 [1, 0] := by
    refine ⟨by decide, [[1, 0]], [[1, 0]], ?_, List.Perm.refl _, rfl⟩
    rw [show fullBins (sortIdx [5, 3, 7]) 2 = [[1, 0]] from by decide]
    exact List.Forall₂.cons (List.Perm.refl _) List.Forall₂.nil
  exact ⟨hio, binned_sampler_drops_remainder [1, 0] hio⟩
